/-
Verification of djfapi's access-scope model, field-access checker,
pagination helper, and the schema <-> model transfer engine
(`transfer_to_orm` / `transfer_from_orm`).

Shallow embedding conventions:
* Python lists/dicts are Lean lists / association lists (dict iteration
  order = insertion order, as in CPython).
* Python `set` objects holding row ids are modelled as lists of ids kept in
  first-seen order; `set.discard` is `List.filter`.
* Functions that can raise return `Except`; an exception class is a
  constructor of the error type.
* Machine-level concerns (Sentry spans, asyncio offloading via
  `sync_to_async`, the deprecated `created_submodels` kwarg which merely
  forces `action = CREATE`, and the `orm_method` callable bindings) are
  orthogonal to the verified claims and are not modelled.
-/
import Mathlib

namespace Djfapi

/-! ## Access scopes — src/djfapi/schemas/access.py

`AccessScope.from_str` does `scopes = scope.split('.') + [None]` and then
indexes `scopes[0] .. scopes[3]`; indexing past the end raises `IndexError`,
which we model as `Option.none`.  Python's `str.split('.')` splits on every
dot and returns `[""]` for the empty string; we embed it on `List Char`. -/

/-- Python `s.split('.')` on a character list: exact partition at every dot. -/
def pySplitDot : List Char → List (List Char)
  | [] => [[]]
  | c :: rest =>
    match pySplitDot rest with
    | [] => [[]]
    | h :: t => if c = '.' then [] :: h :: t else (c :: h) :: t

/-- Python `'.'.join(parts)` on character lists. -/
def pyJoinDot : List (List Char) → List Char
  | [] => []
  | [x] => x
  | x :: y :: t => x ++ '.' :: pyJoinDot (y :: t)

theorem pySplitDot_ne_nil (l : List Char) : pySplitDot l ≠ [] := by
  cases l with
  | nil => simp [pySplitDot]
  | cons c rest =>
    simp only [pySplitDot]
    match h : pySplitDot rest with
    | [] => simp
    | h' :: t => by_cases hc : c = '.' <;> simp [hc]

/-- Joining the split of any string with the same separator restores it. -/
theorem pyJoinDot_pySplitDot (l : List Char) : pyJoinDot (pySplitDot l) = l := by
  induction l with
  | nil => rfl
  | cons c rest ih =>
    simp only [pySplitDot]
    match h : pySplitDot rest with
    | [] => exact absurd h (pySplitDot_ne_nil rest)
    | h' :: t =>
      rw [h] at ih
      by_cases hc : c = '.'
      · simp only [hc, if_pos rfl, pyJoinDot, ih, List.nil_append]
      · simp only [if_neg hc]
        cases t with
        | nil => simp only [pyJoinDot] at ih ⊢; rw [ih]
        | cons y t' =>
          simp only [pyJoinDot] at ih ⊢
          rw [List.cons_append, ih]

/-- `AccessScope` value type: `{service, resource, action, selector?}`. -/
structure AccessScope where
  service : String
  resource : String
  action : String
  selector : Option String
  deriving Repr, DecidableEq

/-- `AccessScope.from_str`: `scopes = scope.split('.') + [None]`, then reads
`scopes[0]`, `scopes[1]`, `scopes[2]`, `scopes[3]`.  With fewer than three
split parts, `scopes[2]` or `scopes[3]` is out of range (`IndexError`,
modelled as `none`); with exactly three parts `scopes[3]` is the appended
`None`; extra parts beyond the fourth are ignored. -/
def AccessScope.from_str (s : String) : Option AccessScope :=
  match (pySplitDot s.data).map (fun l => String.mk l) with
  | a :: b :: c :: rest => some ⟨a, b, c, rest.head?⟩
  | _ => none

/-- `AccessScope.__str__`: `'.'.join(filter(lambda s: s, [service, resource,
action, selector]))` — drops `None` and empty-string segments. -/
def AccessScope.toStr (sc : AccessScope) : String :=
  String.mk (pyJoinDot
    ((([sc.service, sc.resource, sc.action] ++ sc.selector.toList).filter
      (fun x => x ≠ "")).map String.data))

/-! ## Access token — src/djfapi/schemas/access.py

Only the members the verified components read are embedded: the audience
list `aud` and the critical flag `crt` (the claim-token fields `iss`, `iat`,
`nbf`, `exp`, `sub`, `ten`, `rls`, `jti` are never consulted by the checker
or the transfer engine). -/

structure AccessToken where
  aud : List String
  crt : Bool
  deriving Repr, DecidableEq

/-- `AccessToken.has_audience`: first candidate present verbatim in the
token's audience list, else `None`. -/
def AccessToken.has_audience (tok : AccessToken) (audiences : List String) :
    Option String :=
  audiences.find? (fun a => a ∈ tok.aud)

/-! ## Field-access checker — src/djfapi/utils/pydantic_django/checks.py

`check_field_access(input, access)` walks `input.dict(exclude_unset=True)`:
only explicitly-set fields appear in that dict.  A set field whose value is
a dict (a set nested schema) is recursed into with the location path
extended; a set leaf field is checked against its `scopes` /`is_critical`
metadata.  The instance is embedded as the per-field metadata table
(`__fields__`) plus the list of set fields in insertion order. -/

/-- Per-field metadata: the `scopes` and `is_critical` entries of
`field_info.extra` (`[]` models an absent or empty `scopes`). -/
structure FieldMeta where
  scopes : List String
  is_critical : Bool
  deriving Repr, DecidableEq

/-- A set field value as seen in `input.dict(exclude_unset=True)`: either a
scalar leaf or a set nested schema instance (which dumps to a dict and whose
attribute is the sub-instance carrying its own metadata table). -/
inductive CVal where
  | scalar (v : Int)
  | nested (fields : List (String × FieldMeta)) (vals : List (String × CVal))
  deriving Repr

/-- Structured error detail raised by the checker (`type`, `code`,
`detail.loc`). -/
structure CErr where
  etype : String
  code : String
  loc : List String
  deriving Repr, DecidableEq

/-- `model.__fields__[key]` lookup (keys are unique in a pydantic model). -/
def lookupMeta (fields : List (String × FieldMeta)) (k : String) :
    Option FieldMeta :=
  (fields.find? (fun p => p.1 = k)).map (fun p => p.2)

/-- The per-leaf check of `check_field_access` (checks.py lines 33-53): a
field with a non-empty `scopes` list fails unless the token has one of the
scopes; only a field with no scopes declared falls through to the
`is_critical` check, which fails unless `token.crt` is true. -/
def leafCheck (tok : AccessToken) (m : FieldMeta) (loc : List String) :
    Except CErr Unit :=
  if m.scopes ≠ [] then
    if (tok.has_audience m.scopes).isSome then .ok ()
    else .error ⟨"FieldAccessError", "access_error.field", loc⟩
  else if m.is_critical then
    if tok.crt then .ok ()
    else .error ⟨"FieldAccessError", "access_error.field_is_critical", loc⟩
  else .ok ()

/-- The `check` inner loop of `check_field_access`: iterate the set fields;
recurse into set nested schemas with the location extended; check set leaf
fields that are present in the metadata table (raises on first violation). -/
def checkVals (tok : AccessToken) (fields : List (String × FieldMeta))
    (loc : List String) : List (String × CVal) → Except CErr Unit
  | [] => .ok ()
  | (k, .scalar _) :: rest =>
    match lookupMeta fields k with
    | Option.none => checkVals tok fields loc rest
    | Option.some m =>
      match leafCheck tok m (loc ++ [k]) with
      | .error e => .error e
      | .ok _ => checkVals tok fields loc rest
  | (k, .nested subFields subVals) :: rest =>
    match checkVals tok subFields (loc ++ [k]) subVals with
    | .error e => .error e
    | .ok _ => checkVals tok fields loc rest

/-- `check_field_access(input, access)`: run the walk over the set fields
with the initial location `['body']`. -/
def check_field_access (fields : List (String × FieldMeta))
    (setVals : List (String × CVal)) (tok : AccessToken) : Except CErr Unit :=
  checkVals tok fields ["body"] setVals

/-! ## Pagination — src/djfapi/utils/fastapi.py and src/djfapi/schemas/query.py

`depends_pagination(max_limit)` builds a FastAPI dependency whose query
parameters are validated as `1 <= limit <= max_limit` and `offset >= 0`
(those bounds become hypotheses of the theorems).  The returned `Pagination`
stores `limit = offset + (limit or max_limit)` — i.e. the *end index* of the
slice — and `Pagination.query` runs
`objects.filter(q_filters).order_by(*order_by)[offset:limit]`.
The queryset is embedded as a list, filtering as `List.filter`, and the
ORM's `order_by` as an explicit reordering function (it may raise
`FieldDoesNotExist` / `FieldError`, which `query` converts into a request
validation error at location `("query", "order_by")`). -/

structure Pagination where
  limit : Nat
  offset : Nat
  order_by : List String
  deriving Repr, DecidableEq

/-- The `get_pagination` closure of `depends_pagination`: `offset` defaults
to 0, and the stored `limit` is `offset + (limit or max_limit)` (a falsy —
zero or absent — requested limit falls back to `max_limit`). -/
def get_pagination (max_limit : Nat) (limit offset : Option Nat)
    (order_by : List String) : Pagination :=
  let off := offset.getD 0
  { limit := off + (match limit with
      | Option.some l => if l ≠ 0 then l else max_limit
      | Option.none => max_limit),
    offset := off,
    order_by := order_by }

/-- Python slice `xs[a:b]` on lists (b is an end index). -/
def pySlice (a b : Nat) (xs : List α) : List α :=
  (xs.drop a).take (b - a)

/-- Error raised by `Pagination.query` when `order_by` names a field that
does not exist on the model (converted `FieldDoesNotExist`/`FieldError`). -/
inductive QueryErr where
  | requestValidationError (loc : List String)
  deriving Repr, DecidableEq

/-- `Pagination.query`: filter, then order, then slice `[offset:limit]`. -/
def Pagination.query (p : Pagination) (objects : List α) (q_filters : α → Bool)
    (orderFn : List String → List α → Option (List α)) :
    Except QueryErr (List α) :=
  match orderFn p.order_by (objects.filter q_filters) with
  | Option.none => .error (.requestValidationError ["query", "order_by"])
  | Option.some ordered => .ok (pySlice p.offset p.limit ordered)

/-! ## Write direction — src/djfapi/utils/pydantic_django/pydantic_to_django.py

`transfer_to_orm(pydantic_obj, django_obj, action, exclude_unset)` walks the
schema fields, mutating the target row's attributes in memory and
accumulating two running lists: `subobjects` (created or kept related rows)
and `existing_objects` (displaced related rows queued for deletion).  Only
the top-level call persists, inside one atomic transaction.

Embedding:
* a schema instance is its field list (`WField`), each field being one of
  the branches the loop distinguishes: a bound scalar column field, a field
  whose `orm_field` is explicitly `None` (skipped), a nested same-row
  singleton schema (no `orm_field`, `BaseModel` type), a field lacking any
  binding (raises `AttributeError`), or a to-many reverse one-to-many
  relation field (`SHAPE_LIST` bound to a `ReverseManyToOneDescriptor`);
  schemas using `sync_matching`, many-to-many descriptors, JSON columns or
  `orm_method` bindings are outside this embedding;
* a related-row element of an incoming list is `(getattr(val, 'id', None),
  fields of val)`; Python truthiness of the id (`0` is falsy) is kept;
* the persisted state consulted by `SYNC` is `DB`, mapping a relation name
  to the ids of the rows currently related to the target row;
* Django model instances produced by the loop are `SubRow`s: `isNew` is
  true for rows constructed with `related_model(...)` and false for rows
  fetched with `objects.get` / `objects.filter`;
* persistence calls made by the top-level transaction are recorded in a
  trace of `Event`s in execution order. -/

inductive TransferAction where
  | CREATE
  | SYNC
  | NO_SUBOBJECTS
  deriving Repr, DecidableEq

/-- In-memory attribute assignments of a model instance (`setattr`). -/
abbrev Attrs := List (String × Option Int)

def setAttr (attrs : Attrs) (k : String) (v : Option Int) : Attrs :=
  if attrs.any (fun p => p.1 = k) then
    attrs.map (fun p => if p.1 = k then (k, v) else p)
  else attrs ++ [(k, v)]

/-- A schema field as the `transfer_to_orm` loop sees it. -/
inductive WField where
  | scalar (attname : String) (isSet : Bool) (value : Option Int)
  | unbound
  | nested (isSet : Bool) (sub : Option (List WField))
      (defaults : List (String × Option Int))
  | missingBinding
  | listRel (rel : String) (elems : List (Option Nat × List WField))
  deriving Repr

/-- A related-row model instance held in `subobjects`/`existing_objects`. -/
structure SubRow where
  id : Option Nat
  isNew : Bool
  attrs : Attrs
  deriving Repr, DecidableEq

/-- Exceptions `transfer_to_orm` can raise.  `missingAction` models the
spec's named `MissingActionError`: no class of that name exists anywhere in
the repository, so no code path can produce this constructor; it is included
only so the spec's claimed error can be stated and compared. -/
inductive TErr where
  | notImplemented
  | attributeError
  | assertionActionNotDefined
  | missingAction
  deriving Repr, DecidableEq

/-- Persisted related-row ids per relation name. -/
abbrev DB := List (String × List Nat)

def dbLookup (db : DB) (rel : String) : List Nat :=
  ((db.find? (fun p => p.1 = rel)).map (fun p => p.2)).getD []

/-- Python truthiness of `getattr(val, 'id', None)` (`None` and `0` falsy). -/
def idTruthy : Option Nat → Bool
  | Option.none => false
  | Option.some i => i ≠ 0

/-- The `get_subobj` closure of the reverse one-to-many branch (without a
`sync_matching` declaration): `SYNC` with no truthy id forces creation; a
forced creation or `CREATE` constructs a fresh row (with the element's id
when truthy); `SYNC` fetches the row `objects.get(id=val.id, parent=obj)`,
falling back to creation when it does not exist; any other action —
`NO_SUBOBJECTS` or an unspecified action — raises `NotImplementedError`. -/
def getSubobj (action : Option TransferAction) (dbIds : List Nat)
    (vid : Option Nat) : Except TErr SubRow :=
  if (action = some .SYNC ∧ ¬ idTruthy vid) ∨ action = some .CREATE then
    .ok ⟨if idTruthy vid then vid else Option.none, true, []⟩
  else if action = some .SYNC then
    match vid with
    | Option.some i =>
      if i ∈ dbIds then .ok ⟨some i, false, []⟩
      else .ok ⟨some i, true, []⟩
    | Option.none => .ok ⟨Option.none, true, []⟩
  else .error .notImplemented

mutual

/-- The field loop of `transfer_to_orm` (the recursive `_just_return_objs`
view): threads the target row's attributes and returns the accumulated
`(attrs, subobjects, existing_objects)`. -/
def collectFields (excl : Bool) (action : Option TransferAction) (db : DB) :
    List WField → Attrs → Except TErr (Attrs × List SubRow × List SubRow)
  | [], attrs => .ok (attrs, [], [])
  | f :: rest, attrs =>
    match collectField excl action db f attrs with
    | .error e => .error e
    | .ok (a, s, e) =>
      match collectFields excl action db rest a with
      | .error err => .error err
      | .ok (a', s', e') => .ok (a', s ++ s', e ++ e')

/-- One iteration of the field loop.
* bound scalar: skipped when `exclude_unset` and unset, else `setattr`;
* `orm_field` explicitly `None`: skipped;
* nested same-row singleton: an absent value is skipped under
  `exclude_unset` when unset and otherwise reset to the nested schema's
  declared defaults (`populate_default`); a present value is transferred
  recursively against the same row;
* no binding at all: `AttributeError`;
* to-many list: an empty (or unset) incoming list is skipped; otherwise the
  current related ids are collected (under `SYNC`) and each element is
  reconciled by `get_subobj`, the ids not re-confirmed being queued as
  displaced `existing_objects` after the element loop. -/
def collectField (excl : Bool) (action : Option TransferAction) (db : DB) :
    WField → Attrs → Except TErr (Attrs × List SubRow × List SubRow)
  | .scalar attname isSet v, attrs =>
    if excl ∧ ¬ isSet then .ok (attrs, [], [])
    else .ok (setAttr attrs attname v, [], [])
  | .unbound, attrs => .ok (attrs, [], [])
  | .nested isSet sub defaults, attrs =>
    match sub with
    | Option.none =>
      if excl ∧ ¬ isSet then .ok (attrs, [], [])
      else .ok (defaults.foldl (fun a p => setAttr a p.1 p.2) attrs, [], [])
    | Option.some subFields => collectFields excl action db subFields attrs
  | .missingBinding, _ => .error .attributeError
  | .listRel rel elems, attrs =>
    if elems.isEmpty then .ok (attrs, [], [])
    else
      match processElems excl action db rel elems
          (if action = some .SYNC then dbLookup db rel else []) with
      | .error e => .error e
      | .ok (subs, exist, remaining) =>
        .ok (attrs, subs,
          exist ++ remaining.map (fun i => ⟨some i, false, []⟩))

/-- The element loop of a to-many relation field: build or fetch the related
row, discard its id from the tracking collection, recursively transfer the
element's own fields into it (appending any deeper subobjects/displaced
rows), and return the ids still unconfirmed after the loop. -/
def processElems (excl : Bool) (action : Option TransferAction) (db : DB)
    (rel : String) :
    List (Option Nat × List WField) → List Nat →
    Except TErr (List SubRow × List SubRow × List Nat)
  | [], tracking => .ok ([], [], tracking)
  | (vid, vfields) :: rest, tracking =>
    match getSubobj action (dbLookup db rel) vid with
    | .error e => .error e
    | .ok sub =>
      match collectFields excl action db vfields sub.attrs with
      | .error e => .error e
      | .ok (subAttrs, ns, ne) =>
        match processElems excl action db rel rest
            (tracking.filter (fun x => Option.some x ≠ sub.id)) with
        | .error e => .error e
        | .ok (ss, es, tr) =>
          .ok (({ sub with attrs := subAttrs }) :: (ns ++ ss), ne ++ es, tr)

end

/-- A persistence call made inside the top-level atomic transaction. -/
inductive Event where
  | saveRoot
  | saveSub (r : SubRow)
  | deleteSub (r : SubRow)
  deriving Repr, DecidableEq

/-- Result of a top-level `transfer_to_orm` call: the root row's in-memory
attributes, the accumulated lists, and the persistence trace. -/
structure TransferResult where
  rootAttrs : Attrs
  subobjects : List SubRow
  displaced : List SubRow
  trace : List Event
  deriving Repr, DecidableEq

/-- Top-level `transfer_to_orm` (access check and deprecated kwargs aside):
run the field loop; assert that an action was given whenever subobjects were
accumulated; then, for any of the three actions, save the root row and — for
`CREATE`/`SYNC` — first delete every displaced object under `SYNC` and then
save every accumulated subobject, all within one transaction.  With no
action, no persistence happens at all. -/
def transfer_to_orm (db : DB) (rootAttrs : Attrs) (fields : List WField)
    (action : Option TransferAction) (excl : Bool) :
    Except TErr TransferResult :=
  match collectFields excl action db fields rootAttrs with
  | .error e => .error e
  | .ok (attrs, subs, exist) =>
    if subs ≠ [] ∧ action = Option.none then .error .assertionActionNotDefined
    else
      .ok ⟨attrs, subs, exist,
        match action with
        | Option.none => []
        | Option.some a =>
          Event.saveRoot ::
            (if a = .CREATE ∨ a = .SYNC then
              (if a = .SYNC then exist.map Event.deleteSub else []) ++
                subs.map Event.saveSub
            else [])⟩

/-! ## Read direction — src/djfapi/utils/pydantic_django/django_to_pydantic.py

`_transfer_from_orm(pydantic_cls, django_obj, ...)` builds the output value
dict field by field and finishes with `pydantic_cls.construct(**values)`
(no validation).  The embedding covers singleton fields bound to a scalar
model column (`orm_field.field.attname` read via `getattr`) and fields whose
`orm_field` is explicitly `None` (the loop skips them via the `...`
sentinel); `orm_method`, property, JSON and list-shaped bindings are outside
this embedding.

Redaction (`_transfer_field_singleton` lines 220-246): the field's `scopes`
strings are parsed with `AccessScope.from_str` (an unparsable scope raises
`IndexError`); if any scopes are declared, the ambient access context is
looked up — a `LookupError` (no access object set) is swallowed and the
value returned untouched; with a context, if any parsed scope has action
`read` and the token has none of those read scopes, the value is set to
`None`; if the token has one and the model exposes `check_access`, a
selector-aware denial likewise sets the value to `None`.  A required field
that is `None` while nested under a nullable parent raises `Break`, which
the caller turns into `None` for the whole object. -/

/-- A read-schema field: name, `required` flag, `scopes` metadata, and its
binding (scalar column attribute, or `orm_field` explicitly `None`). -/
inductive RBinding where
  | attr (attname : String)
  | unboundNone
  deriving Repr, DecidableEq

structure RField where
  name : String
  required : Bool
  scopes : List String
  binding : RBinding
  deriving Repr, DecidableEq

/-- The parent schema-field context (`pydantic_field_on_parent`). -/
structure RParent where
  allow_none : Bool
  deriving Repr, DecidableEq

/-- The source model instance: its column values, and — when the model class
defines a `check_access` method — the set of scope selectors that method
denies for the caller (`none` models a model without `check_access`). -/
structure DjObj where
  attrs : List (String × Option Int)
  checkAccessDenied : Option (List (Option String))
  deriving Repr, DecidableEq

/-- Exceptions the read transfer can raise (`Break` is not an exception to
the caller: it is caught by the field loop). -/
inductive RErr where
  | attributeError
  | indexError
  deriving Repr, DecidableEq

/-- Outcome of transferring one field: a value for the output dict, the
`...` skip sentinel, or a caught `Break` collapsing the whole object. -/
inductive FieldOutcome where
  | val (v : Option Int)
  | skip
  | brk
  deriving Repr, DecidableEq

def lookupAttr (attrs : List (String × Option Int)) (k : String) :
    Option (Option Int) :=
  (attrs.find? (fun p => p.1 = k)).map (fun p => p.2)

/-- `_transfer_field_singleton` for a scalar column binding: read the
attribute, raise `Break` for a required-null value under a nullable parent,
then apply read-scope redaction against the ambient access context. -/
def transferFieldSingleton (ctx : Option AccessToken) (parent : Option RParent)
    (dj : DjObj) (f : RField) (attname : String) : Except RErr FieldOutcome :=
  match lookupAttr dj.attrs attname with
  | Option.none => .error .attributeError
  | Option.some v =>
    if f.required ∧ parent.isSome ∧
        ((parent.map RParent.allow_none).getD false) ∧ v = Option.none then
      .ok .brk
    else
      match f.scopes.mapM AccessScope.from_str with
      | Option.none => .error .indexError
      | Option.some parsed =>
        if parsed ≠ [] then
          match ctx with
          | Option.none => .ok (.val v)
          | Option.some access =>
            let readScopes :=
              (parsed.filter (fun sc => sc.action = "read")).map
                AccessScope.toStr
            if readScopes ≠ [] then
              if (access.has_audience readScopes).isNone then .ok (.val Option.none)
              else
                match dj.checkAccessDenied with
                | Option.none => .ok (.val v)
                | Option.some denied =>
                  if (parsed.filter (fun sc => sc.action = "read")).any
                      (fun sc => sc.selector ∈ denied) then
                    .ok (.val Option.none)
                  else .ok (.val v)
            else .ok (.val v)
        else .ok (.val v)

/-- `_transfer_field` restricted to the embedded bindings: an explicitly
unbound field yields the `...` skip sentinel; a scalar column binding is
transferred as a singleton. -/
def transferField (ctx : Option AccessToken) (parent : Option RParent)
    (dj : DjObj) (f : RField) : Except RErr FieldOutcome :=
  match f.binding with
  | .unboundNone => .ok .skip
  | .attr attname => transferFieldSingleton ctx parent dj f attname

/-- The `_transfer_from_orm` field loop: build the output list of
`(field name, value)` pairs; a `Break` makes the whole object `None`; a
skip omits the field from the output. -/
def transfer_from_orm (ctx : Option AccessToken) (parent : Option RParent)
    (dj : DjObj) : List RField →
    Except RErr (Option (List (String × Option Int)))
  | [] => .ok (some [])
  | f :: rest =>
    match transferField ctx parent dj f with
    | .error e => .error e
    | .ok .brk => .ok Option.none
    | .ok .skip => transfer_from_orm ctx parent dj rest
    | .ok (.val v) =>
      match transfer_from_orm ctx parent dj rest with
      | .error e => .error e
      | .ok Option.none => .ok Option.none
      | .ok (Option.some out) => .ok (some ((f.name, v) :: out))

/-! ## Claim C3 — scope string round-trip -/

theorem String.mk_ne_empty {l : List Char} (h : l ≠ []) : String.mk l ≠ "" := by
  intro hc
  exact h (congrArg String.data hc)

/-- Claim C3, counterexample: `"a.b"` consists of exactly 2 non-empty
dot-separated segments, yet `AccessScope.from_str` raises `IndexError`
(modelled as `none`) instead of succeeding: `scopes = ['a', 'b', None]` has
no index 3. -/
theorem claim_C3_counterexample :
    (pySplitDot "a.b".data).length = 2 ∧
    (∀ p ∈ pySplitDot "a.b".data, p ≠ []) ∧
    AccessScope.from_str "a.b" = Option.none := by
  refine ⟨rfl, by decide, rfl⟩

/-- Claim C3 (amended): for every scope string of 3 or 4 non-empty
dot-separated segments, `AccessScope.from_str` succeeds and `__str__` on the
result yields the original string; a 2-segment scope string instead raises
`IndexError` (see the counterexample). -/
theorem claim_C3_roundtrip (s : String)
    (hlen : (pySplitDot s.data).length = 3 ∨ (pySplitDot s.data).length = 4)
    (hne : ∀ p ∈ pySplitDot s.data, p ≠ []) :
    ∃ sc, AccessScope.from_str s = some sc ∧ sc.toStr = s := by
  have hjoin := pyJoinDot_pySplitDot s.data
  rcases hsplit : pySplitDot s.data with _ | ⟨p1, _ | ⟨p2, _ | ⟨p3, _ | ⟨p4, rest⟩⟩⟩⟩ <;>
    rw [hsplit] at hlen <;> simp at hlen
  · rw [hsplit] at hne hjoin
    refine ⟨⟨String.mk p1, String.mk p2, String.mk p3, Option.none⟩, ?_, ?_⟩
    · unfold AccessScope.from_str
      rw [hsplit]
      rfl
    · unfold AccessScope.toStr
      have h1 : String.mk p1 ≠ "" := String.mk_ne_empty (hne p1 (by simp))
      have h2 : String.mk p2 ≠ "" := String.mk_ne_empty (hne p2 (by simp))
      have h3 : String.mk p3 ≠ "" := String.mk_ne_empty (hne p3 (by simp))
      simp [h1, h2, h3, hjoin]
  · subst hlen
    rw [hsplit] at hne hjoin
    refine ⟨⟨String.mk p1, String.mk p2, String.mk p3, some (String.mk p4)⟩, ?_, ?_⟩
    · unfold AccessScope.from_str
      rw [hsplit]
      rfl
    · unfold AccessScope.toStr
      have h1 : String.mk p1 ≠ "" := String.mk_ne_empty (hne p1 (by simp))
      have h2 : String.mk p2 ≠ "" := String.mk_ne_empty (hne p2 (by simp))
      have h3 : String.mk p3 ≠ "" := String.mk_ne_empty (hne p3 (by simp))
      have h4 : String.mk p4 ≠ "" := String.mk_ne_empty (hne p4 (by simp))
      simp [h1, h2, h3, h4, hjoin]

/-- Witness for the amended C3 round-trip at the 3-segment scope
`"access.users.read"`. -/
theorem claim_C3_roundtrip_witness :
    ((pySplitDot "access.users.read".data).length = 3 ∨
      (pySplitDot "access.users.read".data).length = 4) ∧
    (∀ p ∈ pySplitDot "access.users.read".data, p ≠ []) ∧
    ∃ sc, AccessScope.from_str "access.users.read" = some sc ∧
      sc.toStr = "access.users.read" :=
  ⟨Or.inl (by decide), by decide,
    claim_C3_roundtrip "access.users.read" (Or.inl (by decide)) (by decide)⟩

/-! ## Claim C8 — pagination windowing -/

/-- Claim C8: a list query with validated requested limit `L`
(`1 ≤ L ≤ max_limit`) and offset `O` applies the filter, then the declared
ordering, then slices rows `[O : O+L]` of the ordered result: it returns at
most `L` rows, skipping exactly the first `O` matching rows. -/
theorem claim_C8_pagination {α : Type} (max_limit L O : Nat)
    (hL1 : 1 ≤ L) (hL2 : L ≤ max_limit)
    (objects : List α) (q_filters : α → Bool) (order_by : List String)
    (orderFn : List String → List α → Option (List α)) (ordered : List α)
    (hord : orderFn order_by (objects.filter q_filters) = some ordered) :
    (get_pagination max_limit (some L) (some O) order_by).query
        objects q_filters orderFn = .ok ((ordered.drop O).take L) ∧
    ((ordered.drop O).take L).length ≤ L := by
  have hL0 : L ≠ 0 := by omega
  constructor
  · unfold get_pagination Pagination.query
    simp [hord, hL0, pySlice]
  · rw [List.length_take]
    exact min_le_left _ _

/-- Witness for C8: `limit=2, offset=1` over five rows filtered to four
returns rows 2 and 3 of the filtered order. -/
theorem claim_C8_pagination_witness :
    (1 ≤ 2 ∧ 2 ≤ 10) ∧
    ((fun (_ : List String) (l : List Int) => some l) []
        (([1, 2, 4, 3, 5] : List Int).filter (fun x => x ≠ 3)) = some [1, 2, 4, 5]) ∧
    ((get_pagination 10 (some 2) (some 1) []).query
        ([1, 2, 4, 3, 5] : List Int) (fun x => x ≠ 3)
        (fun _ l => some l) = .ok [2, 4] ∧
      ([2, 4] : List Int).length ≤ 2) := by
  refine ⟨⟨by omega, by omega⟩, by decide, ?_⟩
  have h := claim_C8_pagination (α := Int) 10 2 1 (by omega) (by omega)
    [1, 2, 4, 3, 5] (fun x => x ≠ 3) [] (fun _ l => some l) [1, 2, 4, 5] (by decide)
  simpa using h

/-! ## Claim C10 — required scopes shadow the critical flag -/

/-- Claim C10: in the per-field check of `check_field_access`, a field
declaring a non-empty scopes list for which the token has a matching
audience passes without the critical flag ever being consulted; and a
`field_is_critical` violation can only arise for a field that declares no
required scopes. -/
theorem claim_C10_critical_shadowed (tok : AccessToken) (m : FieldMeta)
    (loc : List String) :
    (m.scopes ≠ [] → (tok.has_audience m.scopes).isSome →
      leafCheck tok m loc = .ok ()) ∧
    (∀ e, leafCheck tok m loc = .error e →
      e.code = "access_error.field_is_critical" → m.scopes = []) := by
  constructor
  · intro hs ha
    unfold leafCheck
    simp [hs, ha]
  · intro e he hc
    unfold leafCheck at he
    by_cases hs : m.scopes = []
    · exact hs
    · exfalso
      simp only [hs, ne_eq, not_false_eq_true, if_true] at he
      by_cases ha : (tok.has_audience m.scopes).isSome
      · simp [ha] at he
      · simp only [ha, if_false] at he
        injection he with he'
        rw [← he'] at hc
        simp at hc

/-- Witness for C10: a critical-flagged field whose scope the token does
hold passes the check even though the token's `crt` flag is false. -/
theorem claim_C10_critical_shadowed_witness :
    (FieldMeta.mk ["iam.users.update"] true).scopes ≠ [] ∧
    ((AccessToken.mk ["iam.users.update"] false).has_audience
      (FieldMeta.mk ["iam.users.update"] true).scopes).isSome ∧
    leafCheck (AccessToken.mk ["iam.users.update"] false)
      (FieldMeta.mk ["iam.users.update"] true) ["body", "name"] = .ok () :=
  ⟨by decide, by decide,
    (claim_C10_critical_shadowed (AccessToken.mk ["iam.users.update"] false)
      (FieldMeta.mk ["iam.users.update"] true) ["body", "name"]).1
      (by decide) (by decide)⟩

/-! ## Ordering predicates over persistence traces -/

def isSaveSub : Event → Bool
  | .saveSub _ => true
  | _ => false

def isDeleteSub : Event → Bool
  | .deleteSub _ => true
  | _ => false

/-- The ordering claimed by the spec: every subobject delete happens after
all subobject saves — equivalently, no subobject save follows a delete. -/
def subSavesBeforeDeletes : List Event → Bool
  | [] => true
  | .deleteSub _ :: rest =>
    rest.all (fun e => ! isSaveSub e) && subSavesBeforeDeletes rest
  | .saveRoot :: rest => subSavesBeforeDeletes rest
  | .saveSub _ :: rest => subSavesBeforeDeletes rest

/-- The ordering the code implements: every displaced-object delete happens
before all subobject saves — no subobject delete follows a save. -/
def deletesBeforeSubSaves : List Event → Bool
  | [] => true
  | .saveSub _ :: rest =>
    rest.all (fun e => ! isDeleteSub e) && deletesBeforeSubSaves rest
  | .saveRoot :: rest => deletesBeforeSubSaves rest
  | .deleteSub _ :: rest => deletesBeforeSubSaves rest

theorem deletesBeforeSubSaves_saves (ss : List SubRow) :
    deletesBeforeSubSaves (ss.map Event.saveSub) = true := by
  induction ss with
  | nil => rfl
  | cons s rest ih =>
    simp only [List.map_cons, deletesBeforeSubSaves, Bool.and_eq_true]
    refine ⟨?_, ih⟩
    simp [List.all_eq_true, isDeleteSub]

theorem deletesBeforeSubSaves_deletes_append (ds : List SubRow)
    (tail : List Event) (h : deletesBeforeSubSaves tail = true) :
    deletesBeforeSubSaves (ds.map Event.deleteSub ++ tail) = true := by
  induction ds with
  | nil => simpa using h
  | cons d rest ih =>
    simpa only [List.map_cons, List.cons_append, deletesBeforeSubSaves] using ih

/-! ## Claim C1 — persistence order inside the transaction -/

/-- Claim C1, counterexample: a top-level `SYNC` transfer with persisted
related ids `{1, 2}` and incoming ids `{2, 3}` runs the transaction as
`save root; delete row 1; save row 2; save row 3` — the displaced delete
happens *before* the subobject saves, so the claimed saves-then-deletes
order is violated. -/
theorem claim_C1_counterexample :
    transfer_to_orm [("lines", [1, 2])] []
        [.listRel "lines" [(some 2, []), (some 3, [])]]
        (some TransferAction.SYNC) false =
      .ok ⟨[], [⟨some 2, false, []⟩, ⟨some 3, true, []⟩], [⟨some 1, false, []⟩],
        [Event.saveRoot, Event.deleteSub ⟨some 1, false, []⟩,
         Event.saveSub ⟨some 2, false, []⟩, Event.saveSub ⟨some 3, true, []⟩]⟩ ∧
    subSavesBeforeDeletes
      [Event.saveRoot, Event.deleteSub ⟨some 1, false, []⟩,
       Event.saveSub ⟨some 2, false, []⟩, Event.saveSub ⟨some 3, true, []⟩] = false :=
  ⟨rfl, rfl⟩

/-- Claim C1 (amended): in every successful top-level `SYNC` transfer the
transaction saves the root instance first, then deletes every accumulated
displaced object, and only then saves every accumulated created/kept
subobject — all displaced deletes happen *before* all subobject saves (the
spec states the opposite order). -/
theorem claim_C1_sync_order (db : DB) (rootAttrs : Attrs)
    (fields : List WField) (r : TransferResult)
    (h : transfer_to_orm db rootAttrs fields (some TransferAction.SYNC) false =
      .ok r) :
    r.trace = Event.saveRoot ::
      (r.displaced.map Event.deleteSub ++ r.subobjects.map Event.saveSub) ∧
    r.trace.head? = some Event.saveRoot ∧
    deletesBeforeSubSaves r.trace = true := by
  unfold transfer_to_orm at h
  rcases hc : collectFields false (some TransferAction.SYNC) db fields rootAttrs
    with e | ⟨a, subs, exist⟩ <;> rw [hc] at h
  · cases h
  · simp only [reduceCtorEq, and_false, ne_eq, if_false, Option.some.injEq,
      reduceIte, ite_false] at h
    have hr : r = ⟨a, subs, exist,
        Event.saveRoot :: (exist.map Event.deleteSub ++ subs.map Event.saveSub)⟩ := by
      simpa using h.symm
    subst hr
    refine ⟨rfl, rfl, ?_⟩
    exact deletesBeforeSubSaves_deletes_append exist _
      (deletesBeforeSubSaves_saves subs)

/-- Witness for the amended C1 ordering at the counterexample input. -/
theorem claim_C1_sync_order_witness :
    transfer_to_orm [("lines", [1, 2])] []
        [.listRel "lines" [(some 2, []), (some 3, [])]]
        (some TransferAction.SYNC) false =
      .ok ⟨[], [⟨some 2, false, []⟩, ⟨some 3, true, []⟩], [⟨some 1, false, []⟩],
        [Event.saveRoot, Event.deleteSub ⟨some 1, false, []⟩,
         Event.saveSub ⟨some 2, false, []⟩, Event.saveSub ⟨some 3, true, []⟩]⟩ ∧
    ([Event.saveRoot, Event.deleteSub ⟨some 1, false, []⟩,
      Event.saveSub ⟨some 2, false, []⟩, Event.saveSub ⟨some 3, true, []⟩]
        : List Event).head? = some Event.saveRoot ∧
    deletesBeforeSubSaves
      [Event.saveRoot, Event.deleteSub ⟨some 1, false, []⟩,
       Event.saveSub ⟨some 2, false, []⟩, Event.saveSub ⟨some 3, true, []⟩] = true := by
  refine ⟨rfl, ?_, ?_⟩
  · exact (claim_C1_sync_order [("lines", [1, 2])] []
      [.listRel "lines" [(some 2, []), (some 3, [])]] _ rfl).2.1
  · exact (claim_C1_sync_order [("lines", [1, 2])] []
      [.listRel "lines" [(some 2, []), (some 3, [])]] _ rfl).2.2

/-! ## Claim C2 — SYNC set-reconciliation diff -/

/-- Claim C2: with persisted related-row ids `{1, 2, 3}` and an incoming
list referencing ids `{2, 3, 4}`, a `SYNC` transfer keeps the two matching
rows (2, 3 — fetched, not new), creates exactly one new row (4), and
deletes exactly the one row (1) not re-confirmed by the incoming list. -/
theorem claim_C2_sync_diff :
    transfer_to_orm [("lines", [1, 2, 3])] []
        [.listRel "lines" [(some 2, []), (some 3, []), (some 4, [])]]
        (some TransferAction.SYNC) false =
      .ok ⟨[],
        [⟨some 2, false, []⟩, ⟨some 3, false, []⟩, ⟨some 4, true, []⟩],
        [⟨some 1, false, []⟩],
        [Event.saveRoot, Event.deleteSub ⟨some 1, false, []⟩,
         Event.saveSub ⟨some 2, false, []⟩, Event.saveSub ⟨some 3, false, []⟩,
         Event.saveSub ⟨some 4, true, []⟩]⟩ ∧
    (([⟨some 2, false, []⟩, ⟨some 3, false, []⟩, ⟨some 4, true, []⟩]
        : List SubRow).filter (fun r => r.isNew)).map SubRow.id = [some 4] ∧
    (([⟨some 2, false, []⟩, ⟨some 3, false, []⟩, ⟨some 4, true, []⟩]
        : List SubRow).filter (fun r => ! r.isNew)).map SubRow.id =
      [some 2, some 3] ∧
    (([⟨some 1, false, []⟩] : List SubRow)).map SubRow.id = [some 1] :=
  ⟨rfl, by decide, by decide, by decide⟩

/-! ## Inductive lemmas about the field loop -/

mutual

/-- With no action specified, the field loop either raises
(`NotImplementedError` from `get_subobj` on any non-empty to-many list, or
`AttributeError` for an unbound field) or finishes having accumulated no
subobjects and no displaced objects. -/
theorem collectFields_no_action (excl : Bool) (db : DB) (fs : List WField)
    (attrs : Attrs) :
    (collectFields excl Option.none db fs attrs = .error .notImplemented ∨
     collectFields excl Option.none db fs attrs = .error .attributeError) ∨
    ∃ a, collectFields excl Option.none db fs attrs = .ok (a, [], []) := by
  match fs with
  | [] => exact Or.inr ⟨attrs, by simp [collectFields]⟩
  | f :: rest =>
    rcases collectField_no_action excl db f attrs with h | ⟨a, h⟩
    · left
      rcases h with h | h
      · left; simp [collectFields, h]
      · right; simp [collectFields, h]
    · rcases collectFields_no_action excl db rest a with h2 | ⟨a', h2⟩
      · left
        rcases h2 with h2 | h2
        · left; simp [collectFields, h, h2]
        · right; simp [collectFields, h, h2]
      · exact Or.inr ⟨a', by simp [collectFields, h, h2]⟩

theorem collectField_no_action (excl : Bool) (db : DB) (f : WField)
    (attrs : Attrs) :
    (collectField excl Option.none db f attrs = .error .notImplemented ∨
     collectField excl Option.none db f attrs = .error .attributeError) ∨
    ∃ a, collectField excl Option.none db f attrs = .ok (a, [], []) := by
  match f with
  | .scalar attname isSet v =>
    right
    by_cases h : excl = true ∧ ¬ isSet = true
    · exact ⟨attrs, by rw [collectField, if_pos h]⟩
    · exact ⟨setAttr attrs attname v, by rw [collectField, if_neg h]⟩
  | .unbound => exact Or.inr ⟨attrs, by simp [collectField]⟩
  | .nested isSet sub defaults =>
    match sub with
    | Option.none =>
      right
      by_cases h : excl = true ∧ ¬ isSet = true
      · exact ⟨attrs, by rw [collectField, if_pos h]⟩
      · exact ⟨_, by rw [collectField, if_neg h]⟩
    | Option.some subFields =>
      have := collectFields_no_action excl db subFields attrs
      simpa [collectField] using this
  | .missingBinding =>
    exact Or.inl (Or.inr (by simp [collectField]))
  | .listRel rel elems =>
    match elems with
    | [] => exact Or.inr ⟨attrs, by simp [collectField]⟩
    | e :: es =>
      exact Or.inl (Or.inl (by simp [collectField, processElems, getSubobj]))

end

mutual

/-- Under `NO_SUBOBJECTS`, a field loop that finishes has accumulated no
subobjects and no displaced objects (every non-empty to-many field would
have raised `NotImplementedError` inside `get_subobj`). -/
theorem collectFields_no_subobjects (excl : Bool) (db : DB)
    (fs : List WField) (attrs : Attrs) (a : Attrs) (subs exist : List SubRow)
    (h : collectFields excl (some .NO_SUBOBJECTS) db fs attrs =
      .ok (a, subs, exist)) :
    subs = [] ∧ exist = [] := by
  match fs with
  | [] =>
    simp only [collectFields, Except.ok.injEq, Prod.mk.injEq] at h
    exact ⟨h.2.1.symm, h.2.2.symm⟩
  | f :: rest =>
    rcases hc : collectField excl (some .NO_SUBOBJECTS) db f attrs
      with e | ⟨a1, s1, e1⟩ <;>
      simp only [collectFields, hc, reduceCtorEq] at h
    rcases hc2 : collectFields excl (some .NO_SUBOBJECTS) db rest a1
      with e2 | ⟨a2, s2, e2⟩ <;>
      simp only [hc2, reduceCtorEq] at h
    simp only [Except.ok.injEq, Prod.mk.injEq] at h
    obtain ⟨h1a, h1b⟩ := collectField_no_subobjects excl db f attrs a1 s1 e1 hc
    obtain ⟨h2a, h2b⟩ :=
      collectFields_no_subobjects excl db rest a1 a2 s2 e2 hc2
    constructor
    · rw [← h.2.1, h1a, h2a]; rfl
    · rw [← h.2.2, h1b, h2b]; rfl

theorem collectField_no_subobjects (excl : Bool) (db : DB) (f : WField)
    (attrs : Attrs) (a : Attrs) (subs exist : List SubRow)
    (h : collectField excl (some .NO_SUBOBJECTS) db f attrs =
      .ok (a, subs, exist)) :
    subs = [] ∧ exist = [] := by
  match f with
  | .scalar attname isSet v =>
    by_cases hc : excl = true ∧ ¬ isSet = true
    · rw [collectField, if_pos hc] at h
      simp only [Except.ok.injEq, Prod.mk.injEq] at h
      exact ⟨h.2.1.symm, h.2.2.symm⟩
    · rw [collectField, if_neg hc] at h
      simp only [Except.ok.injEq, Prod.mk.injEq] at h
      exact ⟨h.2.1.symm, h.2.2.symm⟩
  | .unbound =>
    simp only [collectField, Except.ok.injEq, Prod.mk.injEq] at h
    exact ⟨h.2.1.symm, h.2.2.symm⟩
  | .nested isSet sub defaults =>
    match sub with
    | Option.none =>
      by_cases hc : excl = true ∧ ¬ isSet = true
      · rw [collectField, if_pos hc] at h
        simp only [Except.ok.injEq, Prod.mk.injEq] at h
        exact ⟨h.2.1.symm, h.2.2.symm⟩
      · rw [collectField, if_neg hc] at h
        simp only [Except.ok.injEq, Prod.mk.injEq] at h
        exact ⟨h.2.1.symm, h.2.2.symm⟩
    | Option.some subFields =>
      rw [collectField] at h
      exact collectFields_no_subobjects excl db subFields attrs a subs exist h
  | .missingBinding => rw [collectField] at h; cases h
  | .listRel rel elems =>
    match elems with
    | [] =>
      simp only [collectField, List.isEmpty_nil, if_true, Except.ok.injEq,
        Prod.mk.injEq] at h
      exact ⟨h.2.1.symm, h.2.2.symm⟩
    | e :: es =>
      simp [collectField, processElems, getSubobj] at h

end

mutual

/-- Fields whose every reachable to-many relation carries an empty incoming
list (and that all carry a binding): the inputs for which the field loop is
guaranteed to touch no related collection. -/
def emptyToManyField : WField → Bool
  | .scalar _ _ _ => true
  | .unbound => true
  | .missingBinding => false
  | .nested _ sub _ =>
    match sub with
    | Option.none => true
    | Option.some fs => emptyToManyFields fs
  | .listRel _ elems => elems.isEmpty

def emptyToManyFields : List WField → Bool
  | [] => true
  | f :: rest => emptyToManyField f && emptyToManyFields rest

end

mutual

theorem collectFields_emptyToMany (excl : Bool) (action : Option TransferAction)
    (db : DB) (fs : List WField) (attrs : Attrs)
    (h : emptyToManyFields fs = true) :
    ∃ a, collectFields excl action db fs attrs = .ok (a, [], []) := by
  match fs with
  | [] => exact ⟨attrs, by simp [collectFields]⟩
  | f :: rest =>
    rw [emptyToManyFields, Bool.and_eq_true] at h
    obtain ⟨a1, h1⟩ := collectField_emptyToMany excl action db f attrs h.1
    obtain ⟨a2, h2⟩ := collectFields_emptyToMany excl action db rest a1 h.2
    exact ⟨a2, by simp [collectFields, h1, h2]⟩

theorem collectField_emptyToMany (excl : Bool) (action : Option TransferAction)
    (db : DB) (f : WField) (attrs : Attrs) (h : emptyToManyField f = true) :
    ∃ a, collectField excl action db f attrs = .ok (a, [], []) := by
  match f with
  | .scalar attname isSet v =>
    by_cases hc : excl = true ∧ ¬ isSet = true
    · exact ⟨attrs, by rw [collectField, if_pos hc]⟩
    · exact ⟨setAttr attrs attname v, by rw [collectField, if_neg hc]⟩
  | .unbound => exact ⟨attrs, by simp [collectField]⟩
  | .nested isSet sub defaults =>
    match sub with
    | Option.none =>
      by_cases hc : excl = true ∧ ¬ isSet = true
      · exact ⟨attrs, by rw [collectField, if_pos hc]⟩
      · exact ⟨_, by rw [collectField, if_neg hc]⟩
    | Option.some subFields =>
      rw [emptyToManyField] at h
      obtain ⟨a, ha⟩ := collectFields_emptyToMany excl action db subFields attrs h
      exact ⟨a, by simp [collectField, ha]⟩
  | .missingBinding => rw [emptyToManyField] at h; cases h
  | .listRel rel elems =>
    rw [emptyToManyField] at h
    have : elems = [] := by
      cases elems with
      | nil => rfl
      | cons e es => simp at h
    subst this
    exact ⟨attrs, by simp [collectField]⟩

end

/-! ## Claim C4 — NO_SUBOBJECTS skips to-many fields -/

/-- Claim C4, counterexample: a `NO_SUBOBJECTS` transfer whose to-many
relation field carries a *non-empty* incoming list raises
`NotImplementedError` inside `get_subobj` instead of skipping the field —
the claim's "skipped entirely regardless of whether the incoming list value
is empty or non-empty" fails for non-empty lists. -/
theorem claim_C4_counterexample :
    transfer_to_orm [("lines", [1])] [] [.listRel "lines" [(some 1, [])]]
      (some TransferAction.NO_SUBOBJECTS) false = .error .notImplemented :=
  rfl

/-- Claim C4 (amended): under `NO_SUBOBJECTS`, direct/scalar and same-row
nested singleton fields are processed and to-many relation fields with an
empty (or unset) incoming list are skipped — every call that finishes has
accumulated no subobjects, deleted nothing, and saved only the root row;
but a to-many field with a *non-empty* incoming list raises
`NotImplementedError` rather than being skipped (see the counterexample). -/
theorem claim_C4_no_subobjects (db : DB) (rootAttrs : Attrs)
    (fields : List WField) (excl : Bool) :
    (∀ r, transfer_to_orm db rootAttrs fields
        (some TransferAction.NO_SUBOBJECTS) excl = .ok r →
      r.subobjects = [] ∧ r.displaced = [] ∧ r.trace = [Event.saveRoot]) ∧
    (emptyToManyFields fields = true →
      ∃ a, transfer_to_orm db rootAttrs fields
        (some TransferAction.NO_SUBOBJECTS) excl =
          .ok ⟨a, [], [], [Event.saveRoot]⟩) := by
  constructor
  · intro r h
    unfold transfer_to_orm at h
    rcases hc : collectFields excl (some .NO_SUBOBJECTS) db fields rootAttrs
      with e | ⟨a, subs, exist⟩ <;> rw [hc] at h
    · cases h
    · obtain ⟨hs, he⟩ :=
        collectFields_no_subobjects excl db fields rootAttrs a subs exist hc
      subst hs; subst he
      simp only [ne_eq, not_true_eq_false, false_and, if_false, reduceIte,
        reduceCtorEq, or_self, List.map_nil, List.append_nil] at h
      have hr : r = ⟨a, [], [], [Event.saveRoot]⟩ := by simpa using h.symm
      subst hr
      exact ⟨rfl, rfl, rfl⟩
  · intro hempty
    obtain ⟨a, ha⟩ := collectFields_emptyToMany excl (some .NO_SUBOBJECTS) db
      fields rootAttrs hempty
    refine ⟨a, ?_⟩
    unfold transfer_to_orm
    rw [ha]
    simp

/-- Witness for the amended C4: a schema with a scalar field and an empty
to-many list under `NO_SUBOBJECTS` saves only the root. -/
theorem claim_C4_no_subobjects_witness :
    emptyToManyFields [.scalar "status" true (some 1), .listRel "lines" []]
      = true ∧
    ∃ a, transfer_to_orm [("lines", [1, 2])] []
      [.scalar "status" true (some 1), .listRel "lines" []]
      (some TransferAction.NO_SUBOBJECTS) false =
        .ok ⟨a, [], [], [Event.saveRoot]⟩ :=
  ⟨rfl, (claim_C4_no_subobjects [("lines", [1, 2])] []
    [.scalar "status" true (some 1), .listRel "lines" []] false).2 rfl⟩

/-! ## Claim C7 — transfers without an action -/

/-- Claim C7, counterexample: a call whose to-many field carries one element
while no action is specified raises `NotImplementedError` (from `get_subobj`,
before any subobject is accumulated), not the spec's `MissingActionError` —
no class of that name exists in the repository, and the
`AssertionError('action is not defined but subobjects exist')` guard is
unreachable because accumulation itself already raised. -/
theorem claim_C7_counterexample :
    transfer_to_orm [] [] [.listRel "lines" [(some 1, [])]]
      Option.none false = .error .notImplemented ∧
    TErr.notImplemented ≠ TErr.missingAction :=
  ⟨rfl, by decide⟩

/-- Claim C7 (amended): every `transfer_to_orm` call without an action
performs no persistence whatsoever: it either raises — always
`NotImplementedError` or `AttributeError`, never a `MissingActionError`
(which does not exist) and never even the `AssertionError` guard of
line 291, which is unreachable because a subobject can only be accumulated
through `get_subobj`, and `get_subobj` raises first when no action is given
— or it finishes with no subobjects, no displaced objects and an empty
persistence trace (not even the root row is saved). -/
theorem claim_C7_missing_action (db : DB) (rootAttrs : Attrs)
    (fields : List WField) (excl : Bool) :
    (transfer_to_orm db rootAttrs fields Option.none excl =
        .error .notImplemented ∨
     transfer_to_orm db rootAttrs fields Option.none excl =
        .error .attributeError) ∨
    ∃ a, transfer_to_orm db rootAttrs fields Option.none excl =
      .ok ⟨a, [], [], []⟩ := by
  rcases collectFields_no_action excl db fields rootAttrs with h | ⟨a, h⟩
  · left
    rcases h with h | h
    · left; unfold transfer_to_orm; rw [h]
    · right; unfold transfer_to_orm; rw [h]
  · right
    refine ⟨a, ?_⟩
    unfold transfer_to_orm
    rw [h]
    simp

/-! ## Claim C5 — unset fields are never checked -/

/-- Replace the metadata of field `f` in a `__fields__` table. -/
def updateMeta (fields : List (String × FieldMeta)) (f : String)
    (m : FieldMeta) : List (String × FieldMeta) :=
  fields.map (fun p => if p.1 = f then (f, m) else p)

theorem lookupMeta_update_ne (fields : List (String × FieldMeta)) (f : String)
    (m : FieldMeta) (k : String) (hk : k ≠ f) :
    lookupMeta (updateMeta fields f m) k = lookupMeta fields k := by
  induction fields with
  | nil => rfl
  | cons p rest ih =>
    by_cases hp : p.1 = f
    · have h1 : ¬ (f = k) := fun h => hk h.symm
      have h2 : ¬ (p.1 = k) := by rw [hp]; exact h1
      simp only [updateMeta, List.map_cons, if_pos hp, lookupMeta,
        List.find?] at ih ⊢
      simp only [h1, h2, decide_eq_true_eq, if_false, Bool.false_eq_true]
      exact ih
    · simp only [updateMeta, List.map_cons, if_neg hp, lookupMeta,
        List.find?] at ih ⊢
      by_cases h2 : p.1 = k
      · simp [h2]
      · simp only [h2, decide_eq_true_eq, if_false, Bool.false_eq_true]
        exact ih

theorem leafCheck_error_loc {tok : AccessToken} {m : FieldMeta}
    {loc : List String} {e : CErr} (h : leafCheck tok m loc = .error e) :
    e.loc = loc := by
  unfold leafCheck at h
  by_cases hs : m.scopes ≠ []
  · rw [if_pos hs] at h
    by_cases ha : (tok.has_audience m.scopes).isSome
    · rw [if_pos ha] at h; cases h
    · rw [if_neg ha] at h
      injection h with h'
      rw [← h']
  · rw [if_neg hs] at h
    by_cases hc : m.is_critical = true
    · rw [if_pos hc] at h
      by_cases hcrt : tok.crt = true
      · rw [if_pos hcrt] at h; cases h
      · rw [if_neg hcrt] at h
        injection h with h'
        rw [← h']
    · rw [if_neg hc] at h; cases h

/-- Any error the checker raises is located at a path `loc ++ k :: _` whose
first component `k` is one of the *set* fields of the walked dict. -/
theorem checkVals_error_loc (tok : AccessToken)
    (fields : List (String × FieldMeta)) (loc : List String)
    (vals : List (String × CVal)) (e : CErr)
    (h : checkVals tok fields loc vals = .error e) :
    ∃ k r', e.loc = loc ++ k :: r' ∧ ∃ v, (k, v) ∈ vals := by
  match vals with
  | [] => simp [checkVals] at h
  | (k, .scalar x) :: rest =>
    rcases hm : lookupMeta fields k with _ | mm <;>
      simp only [checkVals, hm] at h
    · obtain ⟨k', r', hl, v, hv⟩ :=
        checkVals_error_loc tok fields loc rest e h
      exact ⟨k', r', hl, v, List.mem_cons_of_mem _ hv⟩
    · rcases hl : leafCheck tok mm (loc ++ [k]) with e' | u <;>
        simp only [hl, reduceCtorEq] at h
      · have he : e' = e := by injection h
        have hloc := leafCheck_error_loc hl
        refine ⟨k, [], ?_, .scalar x, List.mem_cons_self _ _⟩
        rw [← he, hloc]
      · obtain ⟨k', r', hl2, v, hv⟩ :=
          checkVals_error_loc tok fields loc rest e h
        exact ⟨k', r', hl2, v, List.mem_cons_of_mem _ hv⟩
  | (k, .nested subF subV) :: rest =>
    rcases hs : checkVals tok subF (loc ++ [k]) subV with e' | u <;>
      simp only [checkVals, hs, reduceCtorEq] at h
    · have he : e' = e := by injection h
      obtain ⟨k', r', hl, v, hv⟩ :=
        checkVals_error_loc tok subF (loc ++ [k]) subV e' hs
      refine ⟨k, k' :: r', ?_, .nested subF subV, List.mem_cons_self _ _⟩
      rw [← he, hl, List.append_assoc, List.singleton_append]
    · obtain ⟨k', r', hl2, v, hv⟩ :=
        checkVals_error_loc tok fields loc rest e h
      exact ⟨k', r', hl2, v, List.mem_cons_of_mem _ hv⟩

/-- The checker's behaviour does not depend on the metadata of a field that
is not among the set fields. -/
theorem checkVals_update (tok : AccessToken)
    (fields : List (String × FieldMeta)) (loc : List String) (f : String)
    (m : FieldMeta) (vals : List (String × CVal))
    (hf : ∀ p ∈ vals, p.1 ≠ f) :
    checkVals tok (updateMeta fields f m) loc vals =
      checkVals tok fields loc vals := by
  match vals with
  | [] => simp [checkVals]
  | (k, .scalar x) :: rest =>
    have hk : k ≠ f := hf (k, .scalar x) (List.mem_cons_self _ _)
    have hrest : ∀ p ∈ rest, p.1 ≠ f :=
      fun p hp => hf p (List.mem_cons_of_mem _ hp)
    rcases hm : lookupMeta fields k with _ | mm
    · simp only [checkVals, lookupMeta_update_ne fields f m k hk, hm]
      exact checkVals_update tok fields loc f m rest hrest
    · rcases hl : leafCheck tok mm (loc ++ [k]) with e' | u
      · simp only [checkVals, lookupMeta_update_ne fields f m k hk, hm, hl]
      · simp only [checkVals, lookupMeta_update_ne fields f m k hk, hm, hl]
        exact checkVals_update tok fields loc f m rest hrest
  | (k, .nested subF subV) :: rest =>
    have hrest : ∀ p ∈ rest, p.1 ≠ f :=
      fun p hp => hf p (List.mem_cons_of_mem _ hp)
    rcases hs : checkVals tok subF (loc ++ [k]) subV with e' | u
    · simp only [checkVals, hs]
    · simp only [checkVals, hs]
      exact checkVals_update tok fields loc f m rest hrest

/-- Claim C5: a field `f` that is unset (absent from the
`exclude_unset` dict) is never checked: the outcome of
`check_field_access` is unchanged under any replacement of `f`'s metadata
(its required scopes are never evaluated), and no field-access error is
ever located at `f`. -/
theorem claim_C5_unset_never_checked (tok : AccessToken)
    (fields : List (String × FieldMeta)) (vals : List (String × CVal))
    (f : String) (m : FieldMeta) (hf : ∀ p ∈ vals, p.1 ≠ f) :
    check_field_access (updateMeta fields f m) vals tok =
      check_field_access fields vals tok ∧
    ∀ e, check_field_access fields vals tok = .error e →
      e.loc ≠ ["body", f] := by
  constructor
  · exact checkVals_update tok fields ["body"] f m vals hf
  · intro e he hloc
    obtain ⟨k, r', hl, v, hv⟩ :=
      checkVals_error_loc tok fields ["body"] vals e he
    rw [hloc] at hl
    have : f :: ([] : List String) = k :: r' := by
      simpa using hl
    injection this with h1 _
    exact hf (k, v) hv (h1.symm ▸ rfl)

/-- Witness for C5: with only `"name"` set, replacing the metadata of the
unset field `"hidden"` (which the token's scopes would fail) changes
nothing, and no error is located at `"hidden"`. -/
theorem claim_C5_unset_never_checked_witness :
    (∀ p ∈ [("name", CVal.scalar 1)], p.1 ≠ "hidden") ∧
    (check_field_access
        (updateMeta [("name", FieldMeta.mk [] false),
          ("hidden", FieldMeta.mk ["x.y.update"] true)] "hidden"
          (FieldMeta.mk [] false))
        [("name", CVal.scalar 1)] (AccessToken.mk [] false) =
      check_field_access
        [("name", FieldMeta.mk [] false),
          ("hidden", FieldMeta.mk ["x.y.update"] true)]
        [("name", CVal.scalar 1)] (AccessToken.mk [] false) ∧
    ∀ e, check_field_access
        [("name", FieldMeta.mk [] false),
          ("hidden", FieldMeta.mk ["x.y.update"] true)]
        [("name", CVal.scalar 1)] (AccessToken.mk [] false) = .error e →
      e.loc ≠ ["body", "hidden"]) :=
  ⟨by decide,
    claim_C5_unset_never_checked (AccessToken.mk [] false)
      [("name", FieldMeta.mk [] false),
        ("hidden", FieldMeta.mk ["x.y.update"] true)]
      [("name", CVal.scalar 1)] "hidden" (FieldMeta.mk [] false) (by decide)⟩

/-! ## Claims C6 and C9 — read-direction redaction -/

/-- A field whose transfer yields a value contributes exactly that
`(name, value)` pair to any successfully constructed output schema. -/
theorem transfer_from_orm_mem (ctx : Option AccessToken)
    (parent : Option RParent) (dj : DjObj) (fs : List RField) (f : RField)
    (w : Option Int) (hmem : f ∈ fs)
    (hfield : transferField ctx parent dj f = .ok (.val w)) :
    ∀ out, transfer_from_orm ctx parent dj fs = .ok (some out) →
      (f.name, w) ∈ out := by
  induction fs with
  | nil => cases hmem
  | cons g rest ih =>
    intro out hout
    rcases List.mem_cons.mp hmem with hfg | htail
    · subst hfg
      rcases hrest : transfer_from_orm ctx parent dj rest with e | o <;>
        simp only [transfer_from_orm, hfield, hrest, reduceCtorEq] at hout
      cases o with
      | none => simp at hout
      | some out' =>
        simp only [Except.ok.injEq, Option.some.injEq] at hout
        rw [← hout]
        exact List.mem_cons_self _ _
    · rcases hg : transferField ctx parent dj g with e | o
      · simp only [transfer_from_orm, hg, reduceCtorEq] at hout
      · cases o with
        | brk => simp only [transfer_from_orm, hg] at hout; simp at hout
        | skip =>
          simp only [transfer_from_orm, hg] at hout
          exact ih htail out hout
        | val v =>
          rcases hrest : transfer_from_orm ctx parent dj rest with e2 | o2 <;>
            simp only [transfer_from_orm, hg, hrest, reduceCtorEq] at hout
          cases o2 with
          | none => simp at hout
          | some out' =>
            simp only [Except.ok.injEq, Option.some.injEq] at hout
            rw [← hout]
            exact List.mem_cons_of_mem _ (ih htail out' hrest)

/-- Claim C6: a field with read-action scopes the caller's token lacks is
transferred as `None` (silent redaction, no exception), and it still
appears — with value `None` — in every successfully constructed output
schema, rather than being omitted. -/
theorem claim_C6_read_redaction (acc : AccessToken) (dj : DjObj)
    (fs : List RField) (f : RField) (attname : String) (v0 : Option Int)
    (parsed : List AccessScope) (hmem : f ∈ fs)
    (hbind : f.binding = .attr attname)
    (hval : lookupAttr dj.attrs attname = some v0)
    (hparse : f.scopes.mapM AccessScope.from_str = some parsed)
    (hread :
      (parsed.filter (fun sc => sc.action = "read")).map AccessScope.toStr
        ≠ [])
    (hlack :
      acc.has_audience
        ((parsed.filter (fun sc => sc.action = "read")).map AccessScope.toStr)
        = Option.none) :
    transferField (some acc) Option.none dj f = .ok (.val Option.none) ∧
    ∀ out, transfer_from_orm (some acc) Option.none dj fs = .ok (some out) →
      (f.name, Option.none) ∈ out := by
  have hparsed_ne : parsed ≠ [] := by
    intro hp
    subst hp
    simp at hread
  have hfield :
      transferField (some acc) Option.none dj f = .ok (.val Option.none) := by
    simp only [transferField, hbind]
    unfold transferFieldSingleton
    rw [hval, hparse]
    simp [hparsed_ne, hread, hlack]
  exact ⟨hfield, transfer_from_orm_mem _ _ _ _ _ _ hmem hfield⟩

/-- Witness for C6: the token holds only `a.b.update`; the field requires
`svc.obj.read`; its stored value 42 is redacted to `None` but the field is
present in the output. -/
theorem claim_C6_read_redaction_witness :
    transferField (some (AccessToken.mk ["a.b.update"] false)) Option.none
      (DjObj.mk [("secret", some 42)] Option.none)
      (RField.mk "secret" false ["svc.obj.read"] (.attr "secret")) =
      .ok (.val Option.none) ∧
    ("secret", (Option.none : Option Int)) ∈
      [("secret", (Option.none : Option Int))] := by
  have h := claim_C6_read_redaction (AccessToken.mk ["a.b.update"] false)
    (DjObj.mk [("secret", some 42)] Option.none)
    [RField.mk "secret" false ["svc.obj.read"] (.attr "secret")]
    (RField.mk "secret" false ["svc.obj.read"] (.attr "secret"))
    "secret" (some 42) [⟨"svc", "obj", "read", Option.none⟩]
    (List.mem_cons_self _ _) rfl rfl rfl (by decide) rfl
  exact ⟨h.1, h.2 [("secret", Option.none)] rfl⟩

/-- Claim C9: with no ambient access context (the context lookup raises
`LookupError`, which is swallowed), a scope-protected field's stored value
is returned unredacted, and appears unchanged in every successfully
constructed output schema. -/
theorem claim_C9_no_context_unredacted (dj : DjObj) (fs : List RField)
    (f : RField) (attname : String) (v0 : Option Int) (hmem : f ∈ fs)
    (hbind : f.binding = .attr attname)
    (hval : lookupAttr dj.attrs attname = some v0)
    (hparse : (f.scopes.mapM AccessScope.from_str).isSome) :
    transferField Option.none Option.none dj f = .ok (.val v0) ∧
    ∀ out, transfer_from_orm Option.none Option.none dj fs = .ok (some out) →
      (f.name, v0) ∈ out := by
  obtain ⟨parsed, hp⟩ := Option.isSome_iff_exists.mp hparse
  have hfield : transferField Option.none Option.none dj f = .ok (.val v0) := by
    simp only [transferField, hbind]
    unfold transferFieldSingleton
    rw [hval, hp]
    by_cases hne : parsed = [] <;> simp [hne]
  exact ⟨hfield, transfer_from_orm_mem _ _ _ _ _ _ hmem hfield⟩

/-- Witness for C9: same field and stored value as the C6 witness, but with
no access context: the value 42 is returned unredacted. -/
theorem claim_C9_no_context_unredacted_witness :
    transferField Option.none Option.none
      (DjObj.mk [("secret", some 42)] Option.none)
      (RField.mk "secret" false ["svc.obj.read"] (.attr "secret")) =
      .ok (.val (some 42)) ∧
    ("secret", (some 42 : Option Int)) ∈
      [("secret", (some 42 : Option Int))] := by
  have h := claim_C9_no_context_unredacted
    (DjObj.mk [("secret", some 42)] Option.none)
    [RField.mk "secret" false ["svc.obj.read"] (.attr "secret")]
    (RField.mk "secret" false ["svc.obj.read"] (.attr "secret"))
    "secret" (some 42) (List.mem_cons_self _ _) rfl rfl (by decide)
  exact ⟨h.1, h.2 [("secret", some 42)] rfl⟩

end Djfapi
